import Mathlib

/-!
Verification of the diagnostics subsystem of jpalardy/elm-language-server.

The provided sources are `src/providers/diagnostics/diagnosticsProvider.ts`
(the multi-source aggregation / publishing layer) and the rule-engine test
suite `test/diagnosticTests/elmDiagnostics.test.ts`.  The aggregation layer
is embedded directly from `diagnosticsProvider.ts`; the `FileDiagnostics`
class and the rule engine (`fileDiagnostics.ts`, `elmDiagnostics.ts`) are not
among the provided sources, so they are modelled from the specification's
description of them (sections 3, 4.1, 4.2, 4.3), pinned where possible by the
expectations of the provided test suite.
-/

namespace ELS

/-! ## Diagnostic data model (spec section 3) -/

/-- Severity levels of a published diagnostic (spec section 3). -/
inductive Severity
  | error
  | warning
  | information
  | hint
deriving DecidableEq

/-- Zero-based source range `(startLine, startColumn, endLine, endColumn)`
(spec section 3). -/
structure DiagRange where
  startLine : Nat
  startCol : Nat
  endLine : Nat
  endCol : Nat
deriving DecidableEq

/-- The optional tag set of a diagnostic: a subset of
`{Unnecessary, Deprecated}` (spec section 3), represented as one membership
flag per possible tag so that tag order cannot matter. -/
structure DiagTags where
  unnecessary : Bool
  deprecated : Bool
deriving DecidableEq

/-- A single reported problem (spec section 3): stable code, message,
severity, range, tags.  Two diagnostics are equal iff all these fields are
equal; with tags as a pair of flags this is structural equality. -/
structure Diagnostic where
  code : String
  message : String
  severity : Severity
  range : DiagRange
  tags : DiagTags
deriving DecidableEq

/-- The closed enumeration of producing sources, as used by
`diagnosticsProvider.ts` (`DiagnosticKind.ElmMake` etc.). -/
inductive DiagnosticKind
  | ElmMake
  | ElmAnalyse
  | TypeInference
  | ElmLS
deriving DecidableEq

/-! ## String-keyed insertion-ordered maps

`diagnosticsProvider.ts` stores per-file state in a JavaScript `Map`, which
is an insertion-ordered association of unique keys.  We embed it as an
association list; `set` on a present key replaces in place, on an absent key
appends (JavaScript `Map.set` semantics). -/

/-- Lookup in an association list (JavaScript `Map.get`). -/
def mapLookup {α : Type} : List (String × α) → String → Option α
  | [], _ => none
  | (k2, v) :: rest, k => if k2 = k then some v else mapLookup rest k

/-- Key-presence test (JavaScript `Map.has`). -/
def mapHas {α : Type} (m : List (String × α)) (k : String) : Bool :=
  (mapLookup m k).isSome

/-- Insert-or-replace (JavaScript `Map.set`): replaces in place when the key
is present, appends otherwise. -/
def mapSet {α : Type} : List (String × α) → String → α → List (String × α)
  | [], k, v => [(k, v)]
  | (k2, v2) :: rest, k, v =>
    if k2 = k then (k, v) :: rest else (k2, v2) :: mapSet rest k v

/-- Key removal (JavaScript `Map.delete`). -/
def mapDelete {α : Type} (m : List (String × α)) (k : String) :
    List (String × α) :=
  m.filter (fun p => p.1 != k)

/-! ## FileDiagnostics (modelled from the spec) -/

/-- Modelled from the spec: the `FileDiagnostics` class
(`fileDiagnostics.ts`, not among the provided sources).  Spec section 3: it
owns, per file URI, a mapping `DiagnosticKind → ordered list of Diagnostic`;
a kind with no recorded list behaves as the empty list. -/
structure FileDiagnostics where
  uri : String
  elmMake : List Diagnostic := []
  elmAnalyse : List Diagnostic := []
  typeInference : List Diagnostic := []
  elmLS : List Diagnostic := []
deriving DecidableEq

/-- Modelled from the spec: `getForKind` returns the kind's current list
(used by `diagnosticsProvider.ts` lines 283 and 303). -/
def FileDiagnostics.getForKind (fd : FileDiagnostics) :
    DiagnosticKind → List Diagnostic
  | .ElmMake => fd.elmMake
  | .ElmAnalyse => fd.elmAnalyse
  | .TypeInference => fd.typeInference
  | .ElmLS => fd.elmLS

/-- Modelled from the spec: `get()` returns the merged flattened output, the
union across all kinds of each kind's latest list (spec section 3), in a
fixed deterministic kind order. -/
def FileDiagnostics.get (fd : FileDiagnostics) : List Diagnostic :=
  fd.elmMake ++ fd.elmAnalyse ++ fd.typeInference ++ fd.elmLS

/-- Replacement of one kind's slot. -/
def FileDiagnostics.setKind (fd : FileDiagnostics) :
    DiagnosticKind → List Diagnostic → FileDiagnostics
  | .ElmMake, l => { fd with elmMake := l }
  | .ElmAnalyse, l => { fd with elmAnalyse := l }
  | .TypeInference, l => { fd with typeInference := l }
  | .ElmLS, l => { fd with elmLS := l }

/-- Modelled from the spec: `update(kind, list)` replaces the slot and
returns whether the merged flattened output actually changed, where
"changed" means the new flattened multiset of diagnostics differs from the
old one (spec section 3: Diagnostic equality, not list order). -/
def FileDiagnostics.update (fd : FileDiagnostics) (kind : DiagnosticKind)
    (diagnostics : List Diagnostic) : FileDiagnostics × Bool :=
  let fd2 := fd.setKind kind diagnostics
  (fd2, decide (¬ fd2.get.Perm fd.get))

/-! ## Provider state

The observable state of `DiagnosticsProvider`: the `currentDiagnostics` map,
the delayed sends scheduled by debounce wrappers, the transport log of
`connection.sendDiagnostics` calls, and the `connection.console` log. -/

/-- A delayed `sendDiagnostics(uri)` call scheduled by a debounce wrapper
(`updateDiagnostics`, line 237): it will fire at `fireAt`. -/
structure PendingSend where
  uri : String
  fireAt : Nat
deriving DecidableEq

/-- One `connection.sendDiagnostics` transport emission. -/
structure PublishEvent where
  uri : String
  diagnostics : List Diagnostic
deriving DecidableEq

/-- The mutable state of `DiagnosticsProvider` together with the observable
effect logs. -/
structure ProviderState where
  currentDiagnostics : List (String × FileDiagnostics) := []
  pending : List PendingSend := []
  sent : List PublishEvent := []
  log : List String := []
deriving DecidableEq

/-! ## updateDiagnostics (diagnosticsProvider.ts lines 208-239) -/

/-- Embeds `updateDiagnostics(uri, kind, diagnostics)`.  `now` is the
current time in milliseconds.  On `didUpdate` the source constructs a fresh
`debounce(sendDiagnostics, 50)` wrapper (line 235) and calls it once:
per ts-debounce semantics a wrapper called once simply invokes the wrapped
function 50 ms later, so each `didUpdate` schedules its own independent
delayed send, regardless of previously scheduled ones. -/
def updateDiagnostics (s : ProviderState) (now : Nat) (uri : String)
    (kind : DiagnosticKind) (diagnostics : List Diagnostic) : ProviderState :=
  match mapLookup s.currentDiagnostics uri with
  | some fd =>
    let r := fd.update kind diagnostics
    let s2 := { s with currentDiagnostics := mapSet s.currentDiagnostics uri r.1 }
    if r.2 then { s2 with pending := s2.pending ++ [⟨uri, now + 50⟩] } else s2
  | none =>
    if diagnostics.length > 0 then
      let r := (FileDiagnostics.mk uri [] [] [] []).update kind diagnostics
      { s with
        currentDiagnostics := mapSet s.currentDiagnostics uri r.1,
        pending := s.pending ++ [⟨uri, now + 50⟩] }
    else s

/-- The body of the debounced `sendDiagnostics` (lines 227-233): when a
scheduled send fires it reads the file's diagnostics from the map at fire
time (`[]` when the record is gone) and emits them.  Fires the front of the
pending queue. -/
def firePending (s : ProviderState) : ProviderState :=
  match s.pending with
  | [] => s
  | p :: rest =>
    let diags :=
      match mapLookup s.currentDiagnostics p.uri with
      | some fd => fd.get
      | none => []
    { s with pending := rest, sent := s.sent ++ [⟨p.uri, diags⟩] }

/-- Fires every currently pending send, in schedule order. -/
def firePendingAll (s : ProviderState) : ProviderState :=
  s.pending.foldl (fun acc _ => firePending acc) s

/-! ## deleteDiagnostics (diagnosticsProvider.ts lines 241-247) -/

/-- Embeds `deleteDiagnostics(uri)`: unconditionally removes the record from
the map and unconditionally emits an empty diagnostics list (no debounce). -/
def deleteDiagnostics (s : ProviderState) (uri : String) : ProviderState :=
  { s with
    currentDiagnostics := mapDelete s.currentDiagnostics uri,
    sent := s.sent ++ [⟨uri, ([] : List Diagnostic)⟩] }

/-! ## resetDiagnostics (diagnosticsProvider.ts lines 296-308) -/

/-- Embeds `resetDiagnostics(diagnosticList, diagnosticKind)`: for every
tracked file that is absent from `diagnosticList` and whose current list
under the kind is non-empty, write an empty-list entry into
`diagnosticList`.  The source mutates `diagnosticList` while iterating
`currentDiagnostics` with `forEach`; we embed this as a left fold over the
map's entries in insertion order. -/
def resetDiagnostics (current : List (String × FileDiagnostics))
    (diagnosticList : List (String × List Diagnostic))
    (kind : DiagnosticKind) : List (String × List Diagnostic) :=
  current.foldl
    (fun acc p =>
      if !mapHas acc p.1 && decide ((p.2.getForKind kind).length > 0) then
        mapSet acc p.1 []
      else acc)
    diagnosticList

/-! ## Basic map lemmas -/

theorem mapLookup_mapDelete_self {α : Type} (m : List (String × α))
    (k : String) : mapLookup (mapDelete m k) k = none := by
  induction m with
  | nil => rfl
  | cons p rest ih =>
    by_cases h : p.1 = k
    · simp [mapDelete, List.filter, h, bne_self_eq_false] at *
      exact ih
    · simp only [mapDelete, List.filter] at *
      rw [show (p.1 != k) = true by simpa using h]
      cases p with
      | mk k2 v =>
        simp only [mapLookup]
        simp only at h
        rw [if_neg h]
        exact ih

theorem mapLookup_mapSet_self {α : Type} (m : List (String × α))
    (k : String) (v : α) : mapLookup (mapSet m k v) k = some v := by
  induction m with
  | nil => simp [mapSet, mapLookup]
  | cons p rest ih =>
    cases p with
    | mk k2 v2 =>
      by_cases h : k2 = k
      · simp [mapSet, h, mapLookup]
      · simp [mapSet, h, mapLookup, ih]

theorem mapLookup_mapSet_ne {α : Type} (m : List (String × α))
    (k k2 : String) (v : α) (h : k ≠ k2) :
    mapLookup (mapSet m k v) k2 = mapLookup m k2 := by
  induction m with
  | nil => simp [mapSet, mapLookup, h]
  | cons p rest ih =>
    cases p with
    | mk k3 v3 =>
      by_cases h3 : k3 = k
      · simp [mapSet, h3, mapLookup, h]
      · simp [mapSet, h3, mapLookup, ih]

/-! ## Claim C3 -/

/-- C3: for a file URI not currently tracked by the aggregator, an update
delivering an empty diagnostic list is a no-op: the whole provider state is
unchanged — no `FileDiagnostics` record is created, the map is unchanged,
and no publish is emitted or scheduled
(`diagnosticsProvider.ts` lines 208-239: with no existing record and
`diagnostics.length > 0` false, `didUpdate` stays false). -/
theorem C3_update_empty_untracked_noop (s : ProviderState) (now : Nat)
    (uri : String) (kind : DiagnosticKind)
    (h : mapLookup s.currentDiagnostics uri = none) :
    updateDiagnostics s now uri kind [] = s := by
  unfold updateDiagnostics
  rw [h]
  rfl

/-- Witness for C3 at a concrete input: the empty provider state and a
concrete URI. -/
theorem C3_update_empty_untracked_noop_w :
    updateDiagnostics ⟨[], [], [], []⟩ 0 "file:///a/Main.elm"
      DiagnosticKind.ElmLS [] = ⟨[], [], [], []⟩ :=
  C3_update_empty_untracked_noop ⟨[], [], [], []⟩ 0 "file:///a/Main.elm"
    DiagnosticKind.ElmLS rfl

/-! ## getDiagnostics (diagnosticsProvider.ts lines 249-294) -/

/-- The `elmAnalyseTrigger` client setting (`util/settings.ts`). -/
inductive ElmAnalyseTrigger
  | change
  | save
  | never
deriving DecidableEq

/-- Embeds the body of `getDiagnostics` (lines 249-294).  `elmMakeResults`
stands for the map awaited from `elmMakeDiagnostics.createDiagnostics` on a
save/open; the returned boolean records whether
`elmAnalyseDiagnostics.updateFile` was invoked.  The guard at lines 285-291
is `analysePresent && trigger !== "never" && (!list || (list && list.length
=== 0))`; since `list` is produced with `?? []` it is always an array, and
an array is always truthy in JavaScript, so the last conjunct reduces to
`list.length === 0`. -/
def getDiagnostics (s : ProviderState) (now : Nat) (uri : String)
    (isSaveOrOpen : Bool) (analysePresent : Bool)
    (trigger : ElmAnalyseTrigger)
    (elmMakeResults : List (String × List Diagnostic)) :
    ProviderState × Bool :=
  let s1 :=
    if isSaveOrOpen then
      let results :=
        resetDiagnostics s.currentDiagnostics elmMakeResults
          DiagnosticKind.ElmMake
      results.foldl
        (fun acc p => updateDiagnostics acc now p.1 DiagnosticKind.ElmMake p.2)
        s
    else s
  let cur :=
    match mapLookup s1.currentDiagnostics uri with
    | some fd => fd.getForKind DiagnosticKind.ElmMake
    | none => []
  (s1, analysePresent && trigger != ElmAnalyseTrigger.never && cur.length == 0)

/-! ## onTreeChange handler (diagnosticsProvider.ts lines 159-194) -/

/-- The possible outcomes of `elmWorkspaceMatcher.getElmWorkspaceFor`: a
workspace, a thrown `NoWorkspaceContainsError` (with its message), or any
other thrown error. -/
inductive MatcherResult (W : Type)
  | found : W → MatcherResult W
  | noWorkspaceContains : String → MatcherResult W
  | internalError : String → MatcherResult W

/-- Embeds the `astProvider.onTreeChange` handler (lines 159-194): a
`NoWorkspaceContainsError` is logged to the console and the file skipped
(state otherwise untouched); any other error is rethrown; on success the
TypeInference diagnostics and (unless disabled) the ElmLS diagnostics of the
changed file are recomputed and applied. -/
def onTreeChange {W : Type} (matcher : String → MatcherResult W)
    (computeTypeInference : W → String → List Diagnostic)
    (computeElmLS : W → String → List Diagnostic)
    (disableElmLSDiagnostics : Bool) (s : ProviderState) (now : Nat)
    (uri : String) : Except String ProviderState :=
  match matcher uri with
  | .noWorkspaceContains msg => .ok { s with log := s.log ++ [msg] }
  | .internalError msg => .error msg
  | .found w =>
    let s1 := updateDiagnostics s now uri DiagnosticKind.TypeInference
      (computeTypeInference w uri)
    if !disableElmLSDiagnostics then
      .ok (updateDiagnostics s1 now uri DiagnosticKind.ElmLS
        (computeElmLS w uri))
    else .ok s1

/-! ## onDidChangeConfiguration handler (diagnosticsProvider.ts lines 105-129) -/

/-- One entry of a workspace forest's `treeMap`. -/
structure TreeContainer where
  uri : String
  writeable : Bool
deriving DecidableEq

/-- Embeds the `connection.onDidChangeConfiguration` handler (lines
105-129).  When `disableElmLSDiagnostics` is set, every tracked file's ElmLS
slot is updated to `[]` (no rule-engine invocation); otherwise the ElmLS
diagnostics are recomputed for every writeable tree container of every
workspace's forest.  `workspaces` is the list of forests;
`computeElmLS uri` stands for `elmDiagnostics.createDiagnostics(tree, uri,
workspace)` of the container holding `uri`. -/
def onDidChangeConfiguration (disableElmLSDiagnostics : Bool)
    (workspaces : List (List TreeContainer))
    (computeElmLS : String → List Diagnostic)
    (s : ProviderState) (now : Nat) : ProviderState :=
  if disableElmLSDiagnostics then
    (s.currentDiagnostics.map Prod.fst).foldl
      (fun acc u => updateDiagnostics acc now u DiagnosticKind.ElmLS []) s
  else
    workspaces.foldl
      (fun acc forest =>
        forest.foldl
          (fun acc2 tc =>
            if tc.writeable then
              updateDiagnostics acc2 now tc.uri DiagnosticKind.ElmLS
                (computeElmLS tc.uri)
            else acc2)
          acc)
      s

/-! ## Slot observations and their behaviour under updates -/

/-- The diagnostic list a file currently holds under a kind (`[]` when the
file is untracked — `getForKind` of an absent record behaves as empty). -/
def kindSlot (k : DiagnosticKind) (s : ProviderState) (u : String) :
    List Diagnostic :=
  match mapLookup s.currentDiagnostics u with
  | some fd => fd.getForKind k
  | none => []

theorem getForKind_setKind_self (fd : FileDiagnostics) (k : DiagnosticKind)
    (l : List Diagnostic) : (fd.setKind k l).getForKind k = l := by
  cases k <;> rfl

theorem getForKind_setKind_ne (fd : FileDiagnostics) (k k2 : DiagnosticKind)
    (l : List Diagnostic) (h : k ≠ k2) :
    (fd.setKind k l).getForKind k2 = fd.getForKind k2 := by
  cases k <;> cases k2 <;> first | exact absurd rfl h | rfl

/-- What `updateDiagnostics` does to the map, in isolation from the
scheduling of sends. -/
theorem updateDiagnostics_current (s : ProviderState) (now : Nat)
    (uri : String) (kind : DiagnosticKind) (l : List Diagnostic) :
    (updateDiagnostics s now uri kind l).currentDiagnostics =
      match mapLookup s.currentDiagnostics uri with
      | some fd => mapSet s.currentDiagnostics uri (fd.setKind kind l)
      | none =>
        if l.length > 0 then
          mapSet s.currentDiagnostics uri
            ((FileDiagnostics.mk uri [] [] [] []).setKind kind l)
        else s.currentDiagnostics := by
  unfold updateDiagnostics
  cases hl : mapLookup s.currentDiagnostics uri <;> dsimp only <;> split <;> rfl

theorem kindSlot_update_self (k : DiagnosticKind) (s : ProviderState)
    (now : Nat) (u : String) (l : List Diagnostic) :
    kindSlot k (updateDiagnostics s now u k l) u = l := by
  unfold kindSlot
  rw [updateDiagnostics_current]
  cases hl : mapLookup s.currentDiagnostics u with
  | some fd =>
    rw [mapLookup_mapSet_self]
    exact getForKind_setKind_self fd k l
  | none =>
    by_cases hn : l.length > 0
    · rw [if_pos hn, mapLookup_mapSet_self]
      exact getForKind_setKind_self _ k l
    · rw [if_neg hn, hl]
      simp only [List.length_pos, ne_eq, not_not] at hn
      exact hn.symm

theorem kindSlot_update_ne_kind (k k2 : DiagnosticKind) (h : k2 ≠ k)
    (s : ProviderState) (now : Nat) (u2 u : String) (l : List Diagnostic) :
    kindSlot k (updateDiagnostics s now u2 k2 l) u = kindSlot k s u := by
  unfold kindSlot
  rw [updateDiagnostics_current]
  cases hl : mapLookup s.currentDiagnostics u2 with
  | some fd =>
    by_cases hu : u2 = u
    · subst hu
      rw [mapLookup_mapSet_self, hl]
      exact getForKind_setKind_ne fd k2 k l h
    · rw [mapLookup_mapSet_ne _ _ _ _ hu]
  | none =>
    by_cases hn : l.length > 0
    · rw [if_pos hn]
      by_cases hu : u2 = u
      · subst hu
        rw [mapLookup_mapSet_self, hl]
        show ((FileDiagnostics.mk _ [] [] [] []).setKind k2 l).getForKind k = []
        rw [getForKind_setKind_ne _ k2 k l h]
        cases k <;> rfl
      · rw [mapLookup_mapSet_ne _ _ _ _ hu]
    · rw [if_neg hn]

theorem kindSlot_update_ne_uri (k k2 : DiagnosticKind) (s : ProviderState)
    (now : Nat) (u2 u : String) (h : u2 ≠ u) (l : List Diagnostic) :
    kindSlot k (updateDiagnostics s now u2 k2 l) u = kindSlot k s u := by
  unfold kindSlot
  rw [updateDiagnostics_current]
  cases hl : mapLookup s.currentDiagnostics u2 with
  | some fd => rw [mapLookup_mapSet_ne _ _ _ _ h]
  | none =>
    by_cases hn : l.length > 0
    · rw [if_pos hn, mapLookup_mapSet_ne _ _ _ _ h]
    · rw [if_neg hn]

/-! ## Claim C10 -/

theorem foldl_update_kindSlot_ne (k k2 : DiagnosticKind) (h : k2 ≠ k)
    (results : List (String × List Diagnostic)) (s : ProviderState)
    (now : Nat) (u : String) :
    kindSlot k
      (results.foldl
        (fun acc p => updateDiagnostics acc now p.1 k2 p.2) s) u =
    kindSlot k s u := by
  induction results generalizing s with
  | nil => rfl
  | cons p rest ih =>
    rw [List.foldl_cons, ih, kindSlot_update_ne_kind k k2 h]

/-- C10: on an open, save, or change event, the external linter
(elm-analyse) is asked to re-analyze the file exactly when it is configured
(present and trigger not "never") and the file's currently stored ElmMake
diagnostic list — read after the save/open build phase — is empty or
absent; moreover `getDiagnostics` never touches any file's stored
ElmAnalyse diagnostics, so when the linter is not invoked its previously
stored diagnostics are left unchanged (`diagnosticsProvider.ts` lines
249-294). -/
theorem C10_analyse_gated_on_elmmake (s : ProviderState) (now : Nat)
    (uri : String) (isSaveOrOpen analysePresent : Bool)
    (trigger : ElmAnalyseTrigger)
    (elmMakeResults : List (String × List Diagnostic)) :
    ((getDiagnostics s now uri isSaveOrOpen analysePresent trigger
        elmMakeResults).2 = true ↔
      (analysePresent = true ∧ trigger ≠ ElmAnalyseTrigger.never ∧
        kindSlot DiagnosticKind.ElmMake
          (getDiagnostics s now uri isSaveOrOpen analysePresent trigger
            elmMakeResults).1 uri = [])) ∧
    (∀ u, kindSlot DiagnosticKind.ElmAnalyse
        (getDiagnostics s now uri isSaveOrOpen analysePresent trigger
          elmMakeResults).1 u =
      kindSlot DiagnosticKind.ElmAnalyse s u) := by
  constructor
  · have he : (getDiagnostics s now uri isSaveOrOpen analysePresent trigger
        elmMakeResults).2 =
      (analysePresent && (trigger != ElmAnalyseTrigger.never) &&
        ((kindSlot DiagnosticKind.ElmMake
          (getDiagnostics s now uri isSaveOrOpen analysePresent trigger
            elmMakeResults).1 uri).length == 0)) := rfl
    rw [he]
    simp [bne_iff_ne, List.length_eq_zero, and_assoc]
  · intro u
    cases isSaveOrOpen with
    | false => rfl
    | true =>
      have h1 : (getDiagnostics s now uri true analysePresent trigger
          elmMakeResults).1 =
        (resetDiagnostics s.currentDiagnostics elmMakeResults
            DiagnosticKind.ElmMake).foldl
          (fun acc p =>
            updateDiagnostics acc now p.1 DiagnosticKind.ElmMake p.2) s := rfl
      rw [h1]
      exact foldl_update_kindSlot_ne _ _ (by decide) _ s now u

/-! ## Claim C7 -/

/-- C7: in the tree-change handler, a `NoWorkspaceContainsError` from the
workspace matcher is recoverable: the event is logged and the file skipped,
with the diagnostics map, pending sends and transport log all left exactly
as they were (so no diagnostics state is modified for this or any other
file); any other error is rethrown to the caller
(`diagnosticsProvider.ts` lines 159-172). -/
theorem C7_workspace_match_recoverable {W : Type}
    (matcher : String → MatcherResult W)
    (computeTypeInference computeElmLS : W → String → List Diagnostic)
    (disableElmLSDiagnostics : Bool) (s : ProviderState) (now : Nat)
    (uri : String) :
    (∀ msg, matcher uri = MatcherResult.noWorkspaceContains msg →
      onTreeChange matcher computeTypeInference computeElmLS
        disableElmLSDiagnostics s now uri =
        Except.ok { s with log := s.log ++ [msg] }) ∧
    (∀ msg, matcher uri = MatcherResult.internalError msg →
      onTreeChange matcher computeTypeInference computeElmLS
        disableElmLSDiagnostics s now uri = Except.error msg) := by
  constructor
  · intro msg h
    unfold onTreeChange
    rw [h]
  · intro msg h
    unfold onTreeChange
    rw [h]

/-- Witness for C7 at concrete inputs: a matcher that throws
`NoWorkspaceContainsError` leads to a logged skip with untouched
diagnostics state. -/
theorem C7_workspace_match_recoverable_w :
    onTreeChange
      (fun _ => MatcherResult.noWorkspaceContains
        "No Elm workspace contains file:///a.elm")
      (fun (_ : Unit) _ => []) (fun _ _ => []) false ⟨[], [], [], []⟩ 0
      "file:///a.elm" =
      Except.ok ⟨[], [], [], ["No Elm workspace contains file:///a.elm"]⟩ :=
  (C7_workspace_match_recoverable _ _ _ _ _ _ _).1 _ rfl

/-! ## Claim C6 -/

theorem mem_keys_of_mapHas {α : Type} (m : List (String × α)) (u : String)
    (h : mapHas m u = true) : u ∈ m.map Prod.fst := by
  induction m with
  | nil => simp [mapHas, mapLookup] at h
  | cons p rest ih =>
    cases p with
    | mk k v =>
      simp only [mapHas, mapLookup] at h
      by_cases hk : k = u
      · subst hk
        exact List.mem_cons_self _ _
      · rw [if_neg hk] at h
        exact List.mem_cons_of_mem _ (ih h)

theorem foldl_clear_kindSlot (K : List String) (s : ProviderState)
    (now : Nat) (u : String) :
    kindSlot DiagnosticKind.ElmLS
      (K.foldl
        (fun acc u2 => updateDiagnostics acc now u2 DiagnosticKind.ElmLS [])
        s) u =
    if u ∈ K then [] else kindSlot DiagnosticKind.ElmLS s u := by
  induction K generalizing s with
  | nil => simp
  | cons k rest ih =>
    rw [List.foldl_cons, ih]
    by_cases hk : u ∈ rest
    · rw [if_pos hk, if_pos (List.mem_cons_of_mem _ hk)]
    · rw [if_neg hk]
      by_cases hu : k = u
      · subst hu
        rw [kindSlot_update_self, if_pos (List.mem_cons_self _ _)]
      · rw [kindSlot_update_ne_uri _ _ _ _ _ _ hu]
        have hne : u ∉ k :: rest := by
          intro hm
          rcases List.mem_cons.mp hm with h1 | h2
          · exact hu h1.symm
          · exact hk h2
        rw [if_neg hne]

theorem foldl_recompute_kindSlot (forest : List TreeContainer)
    (compute : String → List Diagnostic) (s : ProviderState) (now : Nat)
    (u : String) :
    kindSlot DiagnosticKind.ElmLS
      (forest.foldl
        (fun acc tc =>
          if tc.writeable then
            updateDiagnostics acc now tc.uri DiagnosticKind.ElmLS
              (compute tc.uri)
          else acc)
        s) u =
    if forest.any (fun tc => tc.writeable && tc.uri == u) then compute u
    else kindSlot DiagnosticKind.ElmLS s u := by
  induction forest generalizing s with
  | nil => simp
  | cons tc rest ih =>
    rw [List.foldl_cons, ih, List.any_cons]
    by_cases hr : rest.any (fun tc => tc.writeable && tc.uri == u) = true
    · rw [if_pos hr, if_pos (by rw [hr, Bool.or_true])]
    · rw [if_neg hr]
      rw [show (rest.any (fun tc => tc.writeable && tc.uri == u)) = false by
        simpa using hr]
      rw [Bool.or_false]
      cases hw : tc.writeable with
      | false =>
        rw [if_neg (by simp [hw]), if_neg (by simp [hw])]
      | true =>
        rw [if_pos (by simp [hw])]
        by_cases hu : tc.uri = u
        · subst hu
          rw [kindSlot_update_self, if_pos (by simp [hw])]
        · rw [kindSlot_update_ne_uri _ _ _ _ _ _ hu]
          rw [if_neg (by simp [hw, hu])]

/-- C6 (amended): on a configuration change that disables the rule-engine
source, every currently-tracked file's ElmLS slot is updated to the empty
list, and the handler never invokes the rule engine (its result does not
depend on the compute function at all); on a change where the source is
enabled, ElmLS diagnostics are recomputed for every writeable file of every
workspace's forest — not, in general, for every currently-tracked file
(`diagnosticsProvider.ts` lines 105-129). -/
theorem C6_config_change_amended (workspaces : List (List TreeContainer))
    (compute : String → List Diagnostic) (s : ProviderState) (now : Nat) :
    (∀ u, mapHas s.currentDiagnostics u = true →
      kindSlot DiagnosticKind.ElmLS
        (onDidChangeConfiguration true workspaces compute s now) u = []) ∧
    (∀ compute2, onDidChangeConfiguration true workspaces compute s now =
      onDidChangeConfiguration true workspaces compute2 s now) ∧
    (∀ u, (workspaces.flatten.any fun tc => tc.writeable && tc.uri == u) = true →
      kindSlot DiagnosticKind.ElmLS
        (onDidChangeConfiguration false workspaces compute s now) u =
        compute u) := by
  refine ⟨?_, ?_, ?_⟩
  · intro u hu
    have h1 : onDidChangeConfiguration true workspaces compute s now =
      (s.currentDiagnostics.map Prod.fst).foldl
        (fun acc u2 => updateDiagnostics acc now u2 DiagnosticKind.ElmLS [])
        s := rfl
    rw [h1, foldl_clear_kindSlot,
      if_pos (mem_keys_of_mapHas s.currentDiagnostics u hu)]
  · intro compute2
    rfl
  · intro u hu
    have h1 : onDidChangeConfiguration false workspaces compute s now =
      workspaces.flatten.foldl
        (fun acc tc =>
          if tc.writeable then
            updateDiagnostics acc now tc.uri DiagnosticKind.ElmLS
              (compute tc.uri)
          else acc)
        s := (List.foldl_flatten _ _ _).symm
    rw [h1, foldl_recompute_kindSlot, if_pos hu]

/-- A sample diagnostic used in concrete counterexamples and witnesses. -/
def dUnused : Diagnostic :=
  ⟨"unused_top_level", "m1", Severity.warning, ⟨7, 0, 7, 3⟩, ⟨true, false⟩⟩

/-- A second sample diagnostic. -/
def dCase : Diagnostic :=
  ⟨"boolean_case_expr", "m2", Severity.warning, ⟨4, 4, 7, 18⟩, ⟨false, false⟩⟩

/-- A provider state with one tracked file holding a non-empty ElmLS list. -/
def sTracked : ProviderState :=
  ⟨[("file:///a.elm", ⟨"file:///a.elm", [], [], [], [dUnused]⟩)], [], [], []⟩

/-- C6 (counterexample): the claim "on a configuration change where the
rule-engine source is enabled, Lint diagnostics are recomputed for every
currently-tracked file" is false on the code: with one tracked file holding
a stale non-empty ElmLS list, no workspace forest containing that file, and
a rule engine returning `[]` for every file, the enable branch iterates the
workspace forests (lines 113-127), never the tracked map, so the tracked
file's ElmLS slot keeps its stale value instead of the recomputed one. -/
theorem C6_counterexample :
    mapHas sTracked.currentDiagnostics "file:///a.elm" = true ∧
    kindSlot DiagnosticKind.ElmLS
      (onDidChangeConfiguration false [] (fun _ => []) sTracked 0)
      "file:///a.elm" = [dUnused] ∧
    [dUnused] ≠ (fun _ => ([] : List Diagnostic)) "file:///a.elm" :=
  ⟨rfl, rfl, List.cons_ne_nil _ _⟩

/-- Witness for C6 (amended) at concrete inputs: disabling clears the
tracked file's ElmLS slot; enabling with a one-file writeable forest
recomputes that file's slot. -/
theorem C6_config_change_amended_w :
    mapHas sTracked.currentDiagnostics "file:///a.elm" = true ∧
    kindSlot DiagnosticKind.ElmLS
      (onDidChangeConfiguration true [[⟨"file:///b.elm", true⟩]]
        (fun _ => [dCase]) sTracked 0) "file:///a.elm" = [] ∧
    ([[(⟨"file:///b.elm", true⟩ : TreeContainer)]].flatten.any
      fun tc => tc.writeable && tc.uri == "file:///b.elm") = true ∧
    kindSlot DiagnosticKind.ElmLS
      (onDidChangeConfiguration false [[⟨"file:///b.elm", true⟩]]
        (fun _ => [dCase]) sTracked 0) "file:///b.elm" = [dCase] :=
  ⟨rfl,
   (C6_config_change_amended [[⟨"file:///b.elm", true⟩]] (fun _ => [dCase])
     sTracked 0).1 "file:///a.elm" rfl,
   rfl,
   (C6_config_change_amended [[⟨"file:///b.elm", true⟩]] (fun _ => [dCase])
     sTracked 0).2.2 "file:///b.elm" rfl⟩

/-! ## Claim C1 -/

/-- The C1 scenario: two republish requests for the same file, 10 ms apart
(both inside the 50 ms window), each changing the merged list, then every
scheduled send fires. -/
def c1Scenario : ProviderState :=
  firePendingAll
    (updateDiagnostics
      (updateDiagnostics ⟨[], [], [], []⟩ 0 "file:///a.elm"
        DiagnosticKind.ElmLS [dUnused])
      10 "file:///a.elm" DiagnosticKind.ElmLS [dUnused, dCase])

/-- C1 (code bug): two republish requests for one URI within the 50 ms
window produce TWO transport emissions, not one.  `updateDiagnostics`
constructs a fresh `debounce(sendDiagnostics, 50)` wrapper on every call
(`diagnosticsProvider.ts` line 235) and calls it exactly once, so no two
requests ever share a debounce timer and nothing is ever coalesced — the
debounce has no effect, contradicting the spec's Publish Scheduler design
and the claim's "exactly one transport emission".  The lazy-read half of
the claim does hold: both emissions carry the file's merged state at fire
time, `[dUnused, dCase]`, even though the first request was made while the
state was still `[dUnused]`. -/
theorem C1_debounce_never_coalesces :
    c1Scenario.sent =
      [⟨"file:///a.elm", [dUnused, dCase]⟩,
       ⟨"file:///a.elm", [dUnused, dCase]⟩] ∧
    c1Scenario.sent.length = 2 := by
  constructor
  · rfl
  · rfl

/-! ## Claim C5 -/

theorem mapLookup_eq_none_of_not_mem {α : Type} (m : List (String × α))
    (k : String) (h : k ∉ m.map Prod.fst) : mapLookup m k = none := by
  induction m with
  | nil => rfl
  | cons p rest ih =>
    simp only [List.map_cons, List.mem_cons] at h
    push_neg at h
    cases p with
    | mk k2 v =>
      simp only [mapLookup]
      rw [if_neg (fun he => h.1 he.symm)]
      exact ih h.2

/-- The per-entry step of `resetDiagnostics`. -/
def resetStep (kind : DiagnosticKind)
    (acc : List (String × List Diagnostic)) (p : String × FileDiagnostics) :
    List (String × List Diagnostic) :=
  if !mapHas acc p.1 && decide ((p.2.getForKind kind).length > 0) then
    mapSet acc p.1 []
  else acc

theorem resetDiagnostics_eq_foldl (current : List (String × FileDiagnostics))
    (diagnosticList : List (String × List Diagnostic))
    (kind : DiagnosticKind) :
    resetDiagnostics current diagnosticList kind =
      current.foldl (resetStep kind) diagnosticList := rfl

theorem mapLookup_resetStep_ne (kind : DiagnosticKind)
    (acc : List (String × List Diagnostic)) (p : String × FileDiagnostics)
    (u : String) (h : p.1 ≠ u) :
    mapLookup (resetStep kind acc p) u = mapLookup acc u := by
  unfold resetStep
  by_cases hc : (!mapHas acc p.1 && decide ((p.2.getForKind kind).length > 0)) = true
  · rw [if_pos hc]
    exact mapLookup_mapSet_ne acc p.1 u [] h
  · rw [if_neg hc]

/-- C5: `resetDiagnostics(newResults, kind)` synthesizes an empty-list entry
in `newResults` for exactly those currently-tracked files whose list under
`kind` is non-empty and which have no entry in `newResults`; entries already
present in `newResults`, files whose list under `kind` is empty, and
untracked files are left with their original lookup result
(`diagnosticsProvider.ts` lines 296-308).  Stated as a complete
characterization of every lookup in the resulting map; the tracked map has
unique keys (a JavaScript `Map`). -/
theorem C5_resetDiagnostics_exact (current : List (String × FileDiagnostics))
    (newResults : List (String × List Diagnostic)) (kind : DiagnosticKind)
    (u : String) (hnd : (current.map Prod.fst).Nodup) :
    mapLookup (resetDiagnostics current newResults kind) u =
      match mapLookup current u with
      | some fd =>
        if mapLookup newResults u = none ∧ 0 < (fd.getForKind kind).length
        then some [] else mapLookup newResults u
      | none => mapLookup newResults u := by
  rw [resetDiagnostics_eq_foldl]
  induction current generalizing newResults with
  | nil => rfl
  | cons p rest ih =>
    simp only [List.map_cons, List.nodup_cons] at hnd
    obtain ⟨hp, hrest⟩ := hnd
    cases p with
    | mk k fd =>
      simp only [List.foldl_cons]
      by_cases hk : k = u
      · subst hk
        have hrestu : mapLookup rest k = none :=
          mapLookup_eq_none_of_not_mem rest k hp
        have hcons : mapLookup ((k, fd) :: rest) k = some fd := by
          simp [mapLookup]
        rw [ih (resetStep kind newResults (k, fd)) hrest, hrestu, hcons]
        show mapLookup (resetStep kind newResults (k, fd)) k =
          if mapLookup newResults k = none ∧ 0 < (fd.getForKind kind).length
          then some [] else mapLookup newResults k
        unfold resetStep
        simp only [mapHas]
        by_cases hempty : 0 < (fd.getForKind kind).length
        · by_cases habs : mapLookup newResults k = none
          · rw [if_pos (by simp [habs, hempty])]
            rw [if_pos ⟨habs, hempty⟩]
            exact mapLookup_mapSet_self newResults k []
          · rw [if_neg (by simp [Option.isSome_iff_ne_none.mpr habs])]
            rw [if_neg (fun hc => habs hc.1)]
        · rw [if_neg (by simp [hempty])]
          rw [if_neg (fun hc => hempty hc.2)]
      · have hlk : mapLookup ((k, fd) :: rest) u = mapLookup rest u := by
          simp [mapLookup, hk]
        rw [ih (resetStep kind newResults (k, fd)) hrest]
        have hstep := mapLookup_resetStep_ne kind newResults (k, fd) u hk
        rw [hstep, hlk]

/-- Witness for C5 at a concrete input: one tracked file with a non-empty
ElmMake list and one with an empty one, `newResults` initially empty; the
first gets a synthesized empty entry. -/
theorem C5_resetDiagnostics_exact_w :
    (([("file:///a.elm", FileDiagnostics.mk "file:///a.elm"
          [⟨"1", "err", Severity.error, ⟨0, 0, 0, 1⟩, ⟨false, false⟩⟩] [] [] []),
        ("file:///b.elm", FileDiagnostics.mk "file:///b.elm" [] [] [] [])] :
        List (String × FileDiagnostics)).map Prod.fst).Nodup ∧
    mapLookup
      (resetDiagnostics
        [("file:///a.elm", FileDiagnostics.mk "file:///a.elm"
            [⟨"1", "err", Severity.error, ⟨0, 0, 0, 1⟩, ⟨false, false⟩⟩] [] [] []),
         ("file:///b.elm", FileDiagnostics.mk "file:///b.elm" [] [] [] [])]
        [] DiagnosticKind.ElmMake) "file:///a.elm" =
      (match mapLookup
        [("file:///a.elm", FileDiagnostics.mk "file:///a.elm"
            [⟨"1", "err", Severity.error, ⟨0, 0, 0, 1⟩, ⟨false, false⟩⟩] [] [] []),
         ("file:///b.elm", FileDiagnostics.mk "file:///b.elm" [] [] [] [])]
        "file:///a.elm" with
      | some fd =>
        if mapLookup ([] : List (String × List Diagnostic)) "file:///a.elm" = none ∧
            0 < (fd.getForKind DiagnosticKind.ElmMake).length
        then some [] else mapLookup ([] : List (String × List Diagnostic)) "file:///a.elm"
      | none => mapLookup ([] : List (String × List Diagnostic)) "file:///a.elm") :=
  ⟨by decide,
   C5_resetDiagnostics_exact
     [("file:///a.elm", FileDiagnostics.mk "file:///a.elm"
         [⟨"1", "err", Severity.error, ⟨0, 0, 0, 1⟩, ⟨false, false⟩⟩] [] [] []),
      ("file:///b.elm", FileDiagnostics.mk "file:///b.elm" [] [] [] [])]
     [] DiagnosticKind.ElmMake "file:///a.elm" (by decide)⟩

/-! ## Claim C4 -/

/-- C4: `deleteDiagnostics(uri)` removes the URI's record from the
aggregator's map and always emits an empty diagnostic list to the transport
— for every prior state, so in particular also when the URI was never
tracked (`diagnosticsProvider.ts` lines 241-247: the delete and the send are
both unconditional). -/
theorem C4_delete_clears_and_publishes_empty (s : ProviderState)
    (uri : String) :
    mapLookup (deleteDiagnostics s uri).currentDiagnostics uri = none ∧
    (deleteDiagnostics s uri).sent = s.sent ++ [⟨uri, []⟩] :=
  ⟨mapLookup_mapDelete_self s.currentDiagnostics uri, rfl⟩

/-! ## Rule engine: usage / reachability resolver (modelled from the spec)

The rule-engine source (`elmDiagnostics.ts` and its resolver) is not among
the provided sources; the module-level input and the resolver are modelled
from spec section 4.1, pinned by the provided test suite
(`elmDiagnostics.test.ts`). -/

/-- One item of a module's exposing list: a value name, a type name, or a
type exposed with all its constructors (`T(..)`). -/
inductive ExposedItem
  | value (name : String)
  | typeOnly (name : String)
  | typeAll (name : String)
deriving DecidableEq

/-- Modelled from the spec: a top-level declaration, reduced to its name and
the names occurring inside its defining span, split into expression-level
references (identifiers, type references) and constructor names matched in
patterns — spec section 4.1 builds reference-graph edges from exactly these
occurrences. -/
structure TopDecl where
  name : String
  exprRefs : List String
  patternRefs : List String
deriving DecidableEq

/-- Modelled from the spec: a custom type declaration with its value
constructors, each carrying the source range of its occurrence in the
declaration. -/
structure CustomType where
  name : String
  constructors : List (String × DiagRange)
deriving DecidableEq

/-- Modelled from the spec: the per-module input of the resolver — whether
the module exposes everything, its exposing list, its top-level value
declarations and its custom types. -/
structure ElmModule where
  exposesAll : Bool
  exposingList : List ExposedItem
  decls : List TopDecl
  types : List CustomType
deriving DecidableEq

/-- The name an exposing-list item contributes to the reachability root
set. -/
def ExposedItem.name : ExposedItem → String
  | .value n => n
  | .typeOnly n => n
  | .typeAll n => n

/-- Modelled from the spec (section 4.1): the reachability root set — every
name in the exposing list, or every top-level declaration when the module
exposes everything. -/
def moduleRoots (m : ElmModule) : List String :=
  if m.exposesAll then m.decls.map TopDecl.name
  else m.exposingList.map ExposedItem.name

/-- Appends the elements of `rs` not already present. -/
def addNew (acc rs : List String) : List String :=
  rs.foldl (fun a r => if r ∈ a then a else a ++ [r]) acc

/-- One round of reachability propagation: every declaration whose name is
already reachable contributes all names referenced in its defining span
(expression references and pattern constructors alike). -/
def reachStep (decls : List TopDecl) (used : List String) : List String :=
  decls.foldl
    (fun acc d =>
      if d.name ∈ acc then addNew acc (d.exprRefs ++ d.patternRefs) else acc)
    used

/-- Iterated propagation with fuel. -/
def reachIter (decls : List TopDecl) : Nat → List String → List String
  | 0, used => used
  | n + 1, used => reachIter decls n (reachStep decls used)

/-- Modelled from the spec (section 4.1): the set of used (reachable)
declaration names — reachability from the roots, here computed by iterating
propagation once per declaration, which reaches the fixed point. -/
def usedDecls (m : ElmModule) : List String :=
  reachIter m.decls m.decls.length (moduleRoots m)

/-- Modelled from the spec (section 4.2): the unused_top_level rule — one
report per declaration not in the reachable set. -/
def unusedTopLevel (m : ElmModule) : List String :=
  (m.decls.filter (fun d => d.name ∉ usedDecls m)).map TopDecl.name

/-! ## Rule engine: unused_value_constructor -/

/-- Modelled from the spec and the test suite: a constructor counts as used
exactly when its name occurs as an expression-level reference in some
declaration.  A pattern match alone does not count: the repository's test
"unused and not exposed" (elmDiagnostics.test.ts lines 1463-1481) expects
`Bar` reported in `type Foo = Bar Int` / `foo (Bar i) = i`, where `Bar`
occurs only in a pattern. -/
def constructorUsed (m : ElmModule) (c : String) : Bool :=
  m.decls.any (fun d => c ∈ d.exprRefs)

/-- Modelled from the spec and the test suite: the unused_value_constructor
rule — one report per constructor of a type not exposed with `(..)` whose
name is never referenced at expression level. -/
def unusedValueConstructor (m : ElmModule) : List (String × DiagRange) :=
  m.types.foldl
    (fun acc t =>
      if m.exposesAll = true ∨ ExposedItem.typeAll t.name ∈ m.exposingList
      then acc
      else acc ++ t.constructors.filter (fun c => !constructorUsed m c.1))
    []

/-- The unused_value_constructor trigger as claim C2 (and the spec's rule
table, read conjunctively) states it: a constructor also counts as used
when it is matched in a pattern.  Written only for comparison with the
test-pinned `unusedValueConstructor`. -/
def claimConstructorUsed (m : ElmModule) (c : String) : Bool :=
  m.decls.any (fun d => c ∈ d.exprRefs ∨ c ∈ d.patternRefs)

/-- The unused_value_constructor rule under the claim's reading; for
comparison with the test-pinned `unusedValueConstructor`. -/
def claimUnusedValueConstructor (m : ElmModule) : List (String × DiagRange) :=
  m.types.foldl
    (fun acc t =>
      if m.exposesAll = true ∨ ExposedItem.typeAll t.name ∈ m.exposingList
      then acc
      else acc ++ t.constructors.filter (fun c => !claimConstructorUsed m c.1))
    []

/-! ## Rule engine: map_nothing_to_nothing -/

/-- Modelled from the test suite: patterns, as far as the
map_nothing_to_nothing rule needs them. -/
inductive Pat
  | pNothing
  | pJust (p : Pat)
  | pVar (name : String)
  | pWild
deriving DecidableEq

/-- Modelled from the test suite: a fragment of the Elm expression grammar.
A case expression carries, per branch, its pattern, its body and the source
range spanning the branch. -/
inductive Expr
  | eNothing
  | eVar (name : String)
  | eInt (n : Int)
  | eJust (e : Expr)
  | eApp (f a : Expr)
  | eCase (scrutinee : Expr) (branches : List (Pat × Expr × DiagRange))

/-- Does this pattern match exactly `Nothing`? -/
def Pat.isNothingPat : Pat → Bool
  | .pNothing => true
  | _ => false

/-- Is this expression exactly `Nothing`? -/
def Expr.isNothingExpr : Expr → Bool
  | .eNothing => true
  | _ => false

mutual

/-- Modelled from the test suite (elmDiagnostics.test.ts lines 906-957, the
rule is absent from the spec's rule table): collects the ranges of every
case-expression branch whose pattern is `Nothing` and whose body is the
expression `Nothing`, over the whole expression tree. -/
def mapNothingToNothing : Expr → List DiagRange
  | .eNothing => []
  | .eVar _ => []
  | .eInt _ => []
  | .eJust e => mapNothingToNothing e
  | .eApp f a => mapNothingToNothing f ++ mapNothingToNothing a
  | .eCase scrut branches =>
    mapNothingToNothing scrut ++ mntnBranches branches

/-- The branch half of `mapNothingToNothing`: each `Nothing -> Nothing`
branch contributes its range; every branch body is searched recursively. -/
def mntnBranches : List (Pat × Expr × DiagRange) → List DiagRange
  | [] => []
  | b :: rest =>
    (if b.1.isNothingPat && b.2.1.isNothingExpr then [b.2.2] else []) ++
    mapNothingToNothing b.2.1 ++ mntnBranches rest

end

/-- The diagnostic emitted at each collected range — code, message and
severity exactly as the test suite expects them. -/
def mntnDiag (r : DiagRange) : Diagnostic :=
  ⟨"map_nothing_to_nothing",
   "`Nothing` mapped to `Nothing` in case expression. Use Maybe.map or Maybe.andThen instead.",
   Severity.warning, r, ⟨false, false⟩⟩

/-- The full map_nothing_to_nothing rule: one warning diagnostic per
collected range. -/
def mapNothingToNothingRule (e : Expr) : List Diagnostic :=
  (mapNothingToNothing e).map mntnDiag

/-! ## Claim C8 -/

theorem not_mem_addNew (rs : List String) (x : String) (h2 : x ∉ rs) :
    ∀ acc, x ∉ acc → x ∉ addNew acc rs := by
  unfold addNew
  induction rs with
  | nil => intro acc h1; exact h1
  | cons r rest ih =>
    intro acc h1
    simp only [List.mem_cons, not_or] at h2
    simp only [List.foldl_cons]
    refine ih h2.2 _ ?_
    by_cases hr : r ∈ acc
    · rw [if_pos hr]; exact h1
    · rw [if_neg hr]
      simp only [List.mem_append, List.mem_singleton, not_or]
      exact ⟨h1, h2.1⟩

theorem not_mem_reachStep (decls : List TopDecl) (x : String)
    (href : ∀ e ∈ decls, x ∈ e.exprRefs ++ e.patternRefs → e.name = x) :
    ∀ used, x ∉ used → x ∉ reachStep decls used := by
  unfold reachStep
  induction decls with
  | nil => intro used hx; exact hx
  | cons d rest ih =>
    intro used hx
    simp only [List.foldl_cons]
    have hrefrest : ∀ e ∈ rest, x ∈ e.exprRefs ++ e.patternRefs → e.name = x :=
      fun e he => href e (List.mem_cons_of_mem _ he)
    refine ih hrefrest _ ?_
    by_cases hd : d.name ∈ used
    · rw [if_pos hd]
      refine not_mem_addNew _ x ?_ used hx
      intro hm
      have hxd := href d (List.mem_cons_self _ _) hm
      exact hx (hxd ▸ hd)
    · rw [if_neg hd]; exact hx

theorem not_mem_reachIter (decls : List TopDecl) (x : String)
    (href : ∀ e ∈ decls, x ∈ e.exprRefs ++ e.patternRefs → e.name = x) :
    ∀ n used, x ∉ used → x ∉ reachIter decls n used := by
  intro n
  induction n with
  | zero => intro used hx; exact hx
  | succ n ih =>
    intro used hx
    exact ih _ (not_mem_reachStep decls x href used hx)

/-- C8: a top-level declaration whose name occurs only inside its own
defining span — no reference from any other declaration and not in the
exposing list (module not exposing everything) — is reported
unused_top_level: a self-reference edge never makes a declaration reachable
on its own (spec sections 4.1/4.2; test "only used in self",
elmDiagnostics.test.ts lines 199-219). -/
theorem C8_self_referential_decl_reported (m : ElmModule) (d : TopDecl)
    (hd : d ∈ m.decls) (hall : m.exposesAll = false)
    (hexp : ∀ i ∈ m.exposingList, ExposedItem.name i ≠ d.name)
    (hothers : ∀ e ∈ m.decls, e.name ≠ d.name →
      d.name ∉ e.exprRefs ++ e.patternRefs) :
    d.name ∈ unusedTopLevel m := by
  have hroots : d.name ∉ moduleRoots m := by
    have hm : moduleRoots m = m.exposingList.map ExposedItem.name := by
      unfold moduleRoots
      rw [hall]
      rfl
    rw [hm]
    intro hmm
    rcases List.mem_map.mp hmm with ⟨i, hi, hni⟩
    exact hexp i hi hni
  have href : ∀ e ∈ m.decls, d.name ∈ e.exprRefs ++ e.patternRefs →
      e.name = d.name := by
    intro e he hm
    by_contra hne
    exact hothers e he hne hm
  have hnotused : d.name ∉ usedDecls m :=
    not_mem_reachIter m.decls d.name href _ _ hroots
  unfold unusedTopLevel
  refine List.mem_map.mpr ⟨d, List.mem_filter.mpr ⟨hd, ?_⟩, rfl⟩
  simpa using hnotused

/-- The module of the test "only used in self" (lines 199-219):
`module Bar exposing (foo, Some(..))`, `type Some = Thing`, `foo = 1`,
`bar = bar + foo`. -/
def mC8 : ElmModule :=
  ⟨false,
   [ExposedItem.value "foo", ExposedItem.typeAll "Some"],
   [⟨"foo", [], []⟩, ⟨"bar", ["bar", "foo"], []⟩],
   [⟨"Some", [("Thing", ⟨3, 12, 3, 17⟩)]⟩]⟩

/-- Witness for C8 at the test module: `bar` references itself and `foo`,
nothing else references `bar`, `bar` is not exposed — and it is reported. -/
theorem C8_self_referential_decl_reported_w :
    "bar" ∈ unusedTopLevel mC8 :=
  C8_self_referential_decl_reported mC8 ⟨"bar", ["bar", "foo"], []⟩
    (by decide) rfl (by decide) (by decide)

/-- The test module's other expectations, exactly as the test states them:
`bar` is the only unused_top_level report (`foo` is exposed, so not
reported). -/
theorem unusedTopLevel_mC8_exact : unusedTopLevel mC8 = ["bar"] := by decide

/-! ## Claim C2 -/

theorem mem_uvc_aux (m : ElmModule) (ts : List CustomType)
    (init : List (String × DiagRange)) (c : String × DiagRange) :
    (c ∈ ts.foldl
      (fun acc t =>
        if m.exposesAll = true ∨ ExposedItem.typeAll t.name ∈ m.exposingList
        then acc
        else acc ++ t.constructors.filter (fun x => !constructorUsed m x.1))
      init) ↔
    (c ∈ init ∨ ∃ t ∈ ts,
      ¬(m.exposesAll = true ∨ ExposedItem.typeAll t.name ∈ m.exposingList) ∧
      c ∈ t.constructors.filter (fun x => !constructorUsed m x.1)) := by
  induction ts generalizing init with
  | nil => simp
  | cons t rest ih =>
    rw [List.foldl_cons, ih, List.exists_mem_cons_iff]
    by_cases hp : m.exposesAll = true ∨ ExposedItem.typeAll t.name ∈ m.exposingList
    · rw [if_pos hp]
      constructor
      · rintro (hc | h)
        · exact Or.inl hc
        · exact Or.inr (Or.inr h)
      · rintro (hc | ⟨hnp, _⟩ | h)
        · exact Or.inl hc
        · exact absurd hp hnp
        · exact Or.inr h
    · rw [if_neg hp]
      constructor
      · rintro (hc | h)
        · rcases List.mem_append.mp hc with hi | hf
          · exact Or.inl hi
          · exact Or.inr (Or.inl ⟨hp, hf⟩)
        · exact Or.inr (Or.inr h)
      · rintro (hc | ⟨_, hf⟩ | h)
        · exact Or.inl (List.mem_append.mpr (Or.inl hc))
        · exact Or.inl (List.mem_append.mpr (Or.inr hf))
        · exact Or.inr h

/-- C2 (amended): the rule engine reports unused_value_constructor for a
constructor exactly when its owning type is not exposed with `(..)` (and
the module does not expose everything) and the constructor's name is never
referenced at expression level by any declaration.  A use via pattern match
does not count as a reference — a constructor that is only matched in
patterns IS reported (test "unused and not exposed", lines 1463-1481). -/
theorem C2_unused_value_constructor_amended (m : ElmModule)
    (c : String × DiagRange) :
    c ∈ unusedValueConstructor m ↔
      ∃ t ∈ m.types,
        ¬(m.exposesAll = true ∨ ExposedItem.typeAll t.name ∈ m.exposingList) ∧
        (c ∈ t.constructors ∧ ∀ d ∈ m.decls, c.1 ∉ d.exprRefs) := by
  unfold unusedValueConstructor
  rw [mem_uvc_aux]
  simp only [List.mem_nil_iff, false_or, List.mem_filter,
    Bool.not_eq_true', constructorUsed, List.any_eq_false, decide_eq_true_eq]

/-- The module of the test "unused and not exposed" (lines 1463-1481):
`module Foo exposing (foo)`, `type Foo = Bar Int`, `foo (Bar i) = i` —
constructor `Bar` occurs only in a pattern. -/
def mC2 : ElmModule :=
  ⟨false, [ExposedItem.value "foo"],
   [⟨"foo", ["i"], ["Bar"]⟩],
   [⟨"Foo", [("Bar", ⟨3, 11, 3, 18⟩)]⟩]⟩

/-- C2 (counterexample): the claim says a constructor that is matched in a
pattern (e.g. as a function argument pattern) is not reported.  On the
module of the repository's own test "unused and not exposed" (lines
1463-1481) the constructor `Bar` is matched in a function argument pattern
and never referenced by name, yet the test demands — and the test-pinned
rule produces — exactly one unused_value_constructor report for `Bar`; the
rule as the claim reads it (`claimUnusedValueConstructor`, where pattern
matches count as uses) would report nothing. -/
theorem C2_counterexample :
    unusedValueConstructor mC2 = [("Bar", ⟨3, 11, 3, 18⟩)] ∧
    claimUnusedValueConstructor mC2 = [] ∧
    (∃ d ∈ mC2.decls, "Bar" ∈ d.patternRefs) := by decide

/-- The remaining unused_value_constructor test expectations (lines
1441-1530), exactly as the tests state them: exposed with `(..)` — nothing;
referenced by name — nothing; two constructors of a type exposed without
`(..)` — both reported. -/
theorem uvc_test_conformance :
    unusedValueConstructor
      (⟨false, [ExposedItem.typeAll "Foo"], [],
        [⟨"Foo", [("Bar", ⟨3, 11, 3, 14⟩)]⟩]⟩ : ElmModule) = [] ∧
    unusedValueConstructor
      (⟨false, [ExposedItem.value "foo"], [⟨"foo", ["Bar"], []⟩],
        [⟨"Foo", [("Bar", ⟨3, 11, 3, 18⟩)]⟩]⟩ : ElmModule) = [] ∧
    unusedValueConstructor
      (⟨false, [ExposedItem.value "foo", ExposedItem.typeOnly "Some"], [],
        [⟨"Some", [("Thing", ⟨3, 12, 3, 17⟩), ("Other", ⟨3, 20, 3, 25⟩)]⟩]⟩ :
        ElmModule) =
      [("Thing", ⟨3, 12, 3, 17⟩), ("Other", ⟨3, 20, 3, 25⟩)] := by decide

/-! ## Claim C9 -/

theorem isNothingPat_iff (p : Pat) :
    p.isNothingPat = true ↔ p = Pat.pNothing := by
  cases p <;> simp [Pat.isNothingPat]

theorem isNothingExpr_iff (e : Expr) :
    e.isNothingExpr = true ↔ e = Expr.eNothing := by
  cases e <;> simp [Expr.isNothingExpr]

/-- C9: on any case expression, the rule emits warning diagnostics with
code map_nothing_to_nothing; a range is collected from the expression's own
branch list exactly for branches whose pattern is `Nothing` and whose body
is the expression `Nothing` (at the branch's range), besides ranges coming
from recursion into branch bodies.  In particular a `Nothing` branch with
any other body contributes no report of its own, and a non-`Nothing` branch
whose body is `Nothing` contributes nothing (recursion into the bare
expression `Nothing` yields nothing).  The rule is absent from the spec's
rule table; it is pinned by elmDiagnostics.test.ts lines 906-957. -/
theorem C9_map_nothing_to_nothing_exact (scrut : Expr)
    (branches : List (Pat × Expr × DiagRange)) :
    mapNothingToNothingRule (Expr.eCase scrut branches) =
      (mapNothingToNothing scrut ++ mntnBranches branches).map mntnDiag ∧
    (∀ r, r ∈ mntnBranches branches ↔
      ∃ b ∈ branches,
        (b.1 = Pat.pNothing ∧ b.2.1 = Expr.eNothing ∧ r = b.2.2) ∨
        r ∈ mapNothingToNothing b.2.1) ∧
    (∀ d ∈ mapNothingToNothingRule (Expr.eCase scrut branches),
      d.code = "map_nothing_to_nothing" ∧ d.severity = Severity.warning) := by
  refine ⟨rfl, ?_, ?_⟩
  · intro r
    induction branches with
    | nil => simp [mntnBranches]
    | cons b rest ih =>
      have hif : r ∈ (if b.1.isNothingPat && b.2.1.isNothingExpr
          then [b.2.2] else ([] : List DiagRange)) ↔
          (b.1 = Pat.pNothing ∧ b.2.1 = Expr.eNothing ∧ r = b.2.2) := by
        by_cases hc : (b.1.isNothingPat && b.2.1.isNothingExpr) = true
        · rw [if_pos hc]
          rw [Bool.and_eq_true] at hc
          rcases hc with ⟨h1, h2⟩
          rw [isNothingPat_iff] at h1
          rw [isNothingExpr_iff] at h2
          simp [h1, h2, eq_comm]
        · rw [if_neg hc]
          simp only [List.not_mem_nil, false_iff]
          rintro ⟨hp, he, _⟩
          refine hc ?_
          rw [Bool.and_eq_true, isNothingPat_iff, isNothingExpr_iff]
          exact ⟨hp, he⟩
      rw [show mntnBranches (b :: rest) =
        (if b.1.isNothingPat && b.2.1.isNothingExpr then [b.2.2] else []) ++
        mapNothingToNothing b.2.1 ++ mntnBranches rest from rfl]
      rw [List.exists_mem_cons_iff, List.mem_append, List.mem_append,
        hif, ih]
  · intro d hd
    rcases List.mem_map.mp hd with ⟨r, _, rfl⟩
    exact ⟨rfl, rfl⟩

/-- The case expression of the test "map nothing to nothing" (lines
917-932): `case x of Just a -> Just (a + 1); Nothing -> Nothing`. -/
def e906 : Expr :=
  Expr.eCase (Expr.eVar "x")
    [(Pat.pJust (Pat.pVar "a"),
      Expr.eJust (Expr.eApp (Expr.eApp (Expr.eVar "+") (Expr.eVar "a"))
        (Expr.eInt 1)),
      ⟨4, 4, 4, 26⟩),
     (Pat.pNothing, Expr.eNothing, ⟨5, 4, 5, 22⟩)]

/-- The case expression of the test "map nothing to something" (lines
934-944): the `Nothing` branch's body is `0`. -/
def e934 : Expr :=
  Expr.eCase (Expr.eVar "x")
    [(Pat.pJust (Pat.pVar "a"),
      Expr.eJust (Expr.eApp (Expr.eApp (Expr.eVar "+") (Expr.eVar "a"))
        (Expr.eInt 1)),
      ⟨4, 4, 4, 26⟩),
     (Pat.pNothing, Expr.eInt 0, ⟨5, 4, 5, 16⟩)]

/-- The case expression of the test "map something to nothing" (lines
946-956): only the `Just` branch returns `Nothing`. -/
def e946 : Expr :=
  Expr.eCase (Expr.eVar "x")
    [(Pat.pJust (Pat.pVar "a"), Expr.eNothing, ⟨4, 4, 4, 21⟩),
     (Pat.pNothing, Expr.eInt 0, ⟨5, 4, 5, 16⟩)]

/-- The three test expectations of lines 906-957, exactly as the tests
state them: one warning spanning the `Nothing -> Nothing` branch in the
first, nothing in the other two. -/
theorem mntn_test_conformance :
    mapNothingToNothingRule e906 = [mntnDiag ⟨5, 4, 5, 22⟩] ∧
    mapNothingToNothingRule e934 = [] ∧
    mapNothingToNothingRule e946 = [] :=
  ⟨rfl, rfl, rfl⟩

end ELS
